import Mathlib

/-!
# Momentum headless supervisor — verification development

A shallow embedding, in Lean 4, of the core of the `momentum` headless task
supervisor: the task selector (`selection/selector.go`), the scheduler state
(`cmd/headless.go`), the agent supervisor (`agent/claude.go`, the runner in
the concatenated agent sources), the SSE subscriber (`sse/subscriber.go`)
and the workflow status transitions (`workflow/workflow.go`).

Pure functions of the Go source become Lean functions; the mutable
mutex-guarded state (`runningAgents`, the subscriber lifecycle, the backoff
state) becomes explicit state passing over structures, with one Lean
function per Go method, applied in the order the Go code applies them.
Bounded Go channels become lists with an explicit capacity check at each
push, mirroring the non-blocking `select`/`default` sends of the source.
-/

namespace Momentum

/-! ## Go string ordering

Task ids are compared in Go with the built-in `>` operator on strings,
which is lexicographic. We embed that comparison over the character list
of a Lean `String`. -/

/-- Lexicographic `≤` on character lists: embeds Go's built-in string
comparison (`selector.go` compares task ids with `>`). -/
def goLeChars : List Char → List Char → Bool
  | [], _ => true
  | _ :: _, [] => false
  | a :: as, b :: bs => if a < b then true else if b < a then false else goLeChars as bs

/-- Go string `s <= t`, lexicographically. -/
def goStringLe (s t : String) : Bool := goLeChars s.data t.data

/-! ## Data model (`client/client.go`)

`Project`, `Epic`, `Task` and `TaskFilters` carry exactly the fields the
selection and scheduling code reads. A `Board` is a read snapshot of the
remote system of record; the three `List*` client calls are modelled as
pure queries over that snapshot, with the server applying the `epic_id`
and `status` filters exactly when the client sends them (non-nil and
non-empty, `client.go` `ListTasks`). -/

/-- A guardrail entry on a task (`client.go`: text plus priority number). -/
structure Guardrail where
  text : String
  number : Int
  deriving DecidableEq, Repr

/-- A project; only its id is read by the selection code. -/
structure Project where
  id : String
  deriving DecidableEq, Repr

/-- An epic (`client.go` `Epic`): the `auto` flag gates automatic selection. -/
structure Epic where
  id : String
  title : String
  status : String
  projectID : String
  auto : Bool
  deriving DecidableEq, Repr

/-- A task (`client.go` `Task`). An empty `epicID` means the task has no
owning epic (Go's zero value for the omitted field). -/
structure Task where
  id : String
  title : String
  notes : String
  status : String
  projectID : String
  epicID : String
  blocked : Bool
  dependsOn : List String
  acceptanceCriteria : List String
  guardrails : List Guardrail
  deriving DecidableEq, Repr

/-- Query filters for `ListTasks` (`client.go` `TaskFilters`); `none`
models a nil pointer. -/
structure TaskFilters where
  epicID : Option String := none
  status : Option String := none
  deriving DecidableEq, Repr

/-- Whether a task passes the filters; the client only sends a query
parameter when the pointer is non-nil and the string non-empty
(`client.go` `ListTasks`), and the board then filters by equality. -/
def TaskFilters.keeps (f : TaskFilters) (t : Task) : Bool :=
  (match f.epicID with
   | none => true
   | some e => if e = "" then true else decide (t.epicID = e)) &&
  (match f.status with
   | none => true
   | some st => if st = "" then true else decide (t.status = st))

/-- A read snapshot of the board: the projects, epics and tasks the REST
API would serve. -/
structure Board where
  projects : List Project
  epics : List Epic
  tasks : List Task
  deriving Repr

/-- `client.ListProjects`. -/
def Board.ListProjects (b : Board) : List Project := b.projects

/-- `client.ListEpics(projectID)`: the epics of one project. -/
def Board.ListEpics (b : Board) (pid : String) : List Epic :=
  b.epics.filter (fun e => decide (e.projectID = pid))

/-- `client.ListTasks(projectID, filters)`: the tasks of one project that
pass the filters. -/
def Board.ListTasks (b : Board) (pid : String) (f : TaskFilters) : List Task :=
  b.tasks.filter (fun t => decide (t.projectID = pid) && f.keeps t)

/-! ## Task selection (`selection/selector.go`) -/

/-- The selector's configured scope (`selector.go` `Selector`); empty
strings mean the filter is absent. -/
structure Selector where
  projectID : String
  epicID : String
  taskID : String
  deriving DecidableEq, Repr

/-- The error values `SelectTask` can produce on a reachable board.
`noTask` is the bare `ErrNoTaskAvailable`; every other constructor is a
`fmt.Errorf` that wraps `ErrNoTaskAvailable` with `%w` (`selector.go`). -/
inductive SelErr where
  | noTask
  | taskNotFound (id : String)
  | epicNotFound (id : String)
  | epicNotAuto (id : String)
  | noProjects
  deriving DecidableEq, Repr

/-- `errors.Is(err, ErrNoTaskAvailable)` for each error `SelectTask`
produces: `noTask` is `ErrNoTaskAvailable` itself, and each of the other
errors is built with `fmt.Errorf("...: %w", ErrNoTaskAvailable)`
(`selector.go` lines 92, 125, 130, 172), so `errors.Is` unwraps every one
of them to `ErrNoTaskAvailable`. -/
def SelErr.isNoTaskAvailable : SelErr → Bool
  | .noTask => true
  | .taskNotFound _ => true
  | .epicNotFound _ => true
  | .epicNotAuto _ => true
  | .noProjects => true

/-- `Selector.fetchSpecificTask`: scan every project's full task list in
order and return the first task whose id matches; otherwise the
"task not found" error (which wraps `ErrNoTaskAvailable`). -/
def fetchSpecificTask (b : Board) (tid : String) : Except SelErr Task :=
  match (b.projects.flatMap (fun p => b.ListTasks p.id {})).find?
      (fun t => decide (t.id = tid)) with
  | some t => .ok t
  | none => .error (.taskNotFound tid)

/-- Descending-by-id order on tasks: `a` may precede `b` when
`a.id >= b.id` in Go's string order. This is `sort.Slice`'s
`less(i, j) = ID_i > ID_j` completed to a total preorder. -/
def descById (a b : Task) : Bool := goLeChars b.id.data a.id.data

/-- Insert a task into a list that is sorted descending by id, keeping it
sorted. -/
def insertDescById (x : Task) : List Task → List Task
  | [] => [x]
  | y :: ys => if descById x y then x :: y :: ys else y :: insertDescById x ys

/-- Sort a task list descending by id. `sort.Slice` in the source is an
unspecified comparison sort; any sort by the same ordering is a faithful
embedding (tie order between equal ids is unspecified either way). -/
def sortDescById : List Task → List Task
  | [] => []
  | x :: xs => insertDescById x (sortDescById xs)

/-- `filterAndSortTasks`: keep unblocked tasks with status `todo`, sorted
by id descending (`sort.Slice` with `ID > ID`; newer first). -/
def filterAndSortTasks (tasks : List Task) : List Task :=
  sortDescById (tasks.filter (fun t => !t.blocked && decide (t.status = "todo")))

/-- `Selector.selectBestTask`: restrict to tasks owned by an auto-enabled
epic (non-empty `epicID` present in `autoEpicIDs`), then the head of the
descending sort; `ErrNoTaskAvailable` when nothing qualifies. -/
def selectBestTask (tasks : List Task) (autoEpicIDs : List String) : Except SelErr Task :=
  if tasks = [] then .error .noTask
  else
    let autoTasks := tasks.filter
      (fun t => !(decide (t.epicID = "")) && autoEpicIDs.any (fun e => decide (e = t.epicID)))
    match filterAndSortTasks autoTasks with
    | [] => .error .noTask
    | c :: _ => .ok c

/-- `Selector.getAutoEpicIDs`: ids of the project's epics with `auto = true`. -/
def getAutoEpicIDs (b : Board) (pid : String) : List String :=
  ((b.ListEpics pid).filter (fun e => e.auto)).map (fun e => e.id)

/-- The epic-lookup loop of `Selector.selectFromEpic`: walk the projects,
record `(project.ID, epic.Auto)` for the first matching epic of each
project, and stop as soon as the recorded project id is non-empty. The
accumulator starts at `("", false)`, exactly like the Go locals. -/
def findEpicAux (b : Board) (eid : String) : List Project → String × Bool → String × Bool
  | [], acc => acc
  | p :: rest, acc =>
    let acc' := match (b.ListEpics p.id).find? (fun e => decide (e.id = eid)) with
      | some e => (p.id, e.auto)
      | none => acc
    if acc'.1 = "" then findEpicAux b eid rest acc' else acc'

/-- `Selector.selectFromEpic`: locate the epic's project, reject a missing
epic and an `auto = false` epic (both wrap `ErrNoTaskAvailable`), then
pick the best task among the epic's tasks. -/
def selectFromEpic (b : Board) (eid : String) : Except SelErr Task :=
  let found := findEpicAux b eid b.projects ("", false)
  if found.1 = "" then .error (.epicNotFound eid)
  else if !found.2 then .error (.epicNotAuto eid)
  else selectBestTask (b.ListTasks found.1 { epicID := some eid }) [eid]

/-- `Selector.selectFromProject`. -/
def selectFromProject (b : Board) (pid : String) : Except SelErr Task :=
  selectBestTask (b.ListTasks pid {}) (getAutoEpicIDs b pid)

/-- `Selector.selectFromAllProjects`: pool every project's tasks and every
project's auto epic ids, then pick the best task of the pool. -/
def selectFromAllProjects (b : Board) : Except SelErr Task :=
  if b.projects = [] then .error .noProjects
  else
    selectBestTask (b.projects.flatMap (fun p => b.ListTasks p.id {}))
      (b.projects.flatMap (fun p => getAutoEpicIDs b p.id))

/-- `Selector.SelectTask`: dispatch on the configured scope, in the
priority order task id, epic id, project id, global. -/
def SelectTask (b : Board) (s : Selector) : Except SelErr Task :=
  if !(s.taskID = "") then fetchSpecificTask b s.taskID
  else if !(s.epicID = "") then selectFromEpic b s.epicID
  else if !(s.projectID = "") then selectFromProject b s.projectID
  else selectFromAllProjects b

/-- The candidate set `selectBestTask` picks from: tasks owned by an
auto-enabled epic, unblocked, with status `todo` — the composition of the
two filters of `selectBestTask` and `filterAndSortTasks`, unsorted. -/
def eligibleTasks (tasks : List Task) (autoEpicIDs : List String) : List Task :=
  (tasks.filter
      (fun t => !(decide (t.epicID = "")) && autoEpicIDs.any (fun e => decide (e = t.epicID)))).filter
    (fun t => !t.blocked && decide (t.status = "todo"))

/-- The candidate set of a whole selection call, per scope: empty in
task-id scope, and in the other scopes exactly the tasks the corresponding
`selectFrom*` branch filters (tasks of an auto-enabled epic, unblocked,
status `todo`, within the scope). -/
def scopeCandidates (b : Board) (s : Selector) : List Task :=
  if !(s.taskID = "") then []
  else if !(s.epicID = "") then
    let found := findEpicAux b s.epicID b.projects ("", false)
    if found.1 = "" then []
    else if !found.2 then []
    else eligibleTasks (b.ListTasks found.1 { epicID := some s.epicID }) [s.epicID]
  else if !(s.projectID = "") then
    eligibleTasks (b.ListTasks s.projectID {}) (getAutoEpicIDs b s.projectID)
  else
    eligibleTasks (b.projects.flatMap (fun p => b.ListTasks p.id {}))
      (b.projects.flatMap (fun p => getAutoEpicIDs b p.id))

/-! ## Concrete fixtures for witnesses -/

/-- Build a task giving only the fields the selection code reads. -/
def mkTask (i e st : String) (bl : Bool) (pj : String) : Task :=
  ⟨i, "", "", st, pj, e, bl, [], [], []⟩

/-- Two projects, each with one auto epic and one eligible task
(`task-a` in `proj-1`, `task-z` in `proj-2`). -/
def boardTwoProjects : Board :=
  { projects := [⟨"proj-1"⟩, ⟨"proj-2"⟩]
    epics := [⟨"epic-1", "", "open", "proj-1", true⟩, ⟨"epic-2", "", "open", "proj-2", true⟩]
    tasks := [mkTask "task-a" "epic-1" "todo" false "proj-1",
              mkTask "task-z" "epic-2" "todo" false "proj-2"] }

/-- One project whose only epic has `auto = false`, with a todo task. -/
def boardManualEpic : Board :=
  { projects := [⟨"proj-1"⟩]
    epics := [⟨"epic-1", "", "open", "proj-1", false⟩]
    tasks := [mkTask "task-1" "epic-1" "todo" false "proj-1"] }

/-- One project holding a done, blocked task under a non-auto epic. -/
def boardDoneTask : Board :=
  { projects := [⟨"proj-1"⟩]
    epics := [⟨"epic-1", "", "open", "proj-1", false⟩]
    tasks := [mkTask "task-001" "epic-1" "done" true "proj-1"] }

/-! ## Scheduler running-set state (`cmd/headless.go`)

`runningAgents` is the mutex-guarded scheduler state: the `tasks` map
(task id → is-running), the `runners` map (task id → live runner, modelled
by an abstract runner identity), the `stoppedByUser` map and the bounded
`doneCh` notification channel (capacity 100, non-blocking send). Go map
deletion becomes resetting the key to the zero value. Each Go method
becomes a function of this state; the mutex serialises the methods, so
state passing applies them in the order the code does. -/

structure RunningAgents where
  tasks : String → Bool
  runners : String → Option Nat
  stoppedByUser : String → Bool
  doneCh : List String

/-- `newRunningAgents`: empty maps, empty channel. -/
def newRunningAgents : RunningAgents :=
  ⟨fun _ => false, fun _ => none, fun _ => false, []⟩

/-- `runningAgents.isRunning`. -/
def RunningAgents.isRunning (r : RunningAgents) (taskID : String) : Bool :=
  r.tasks taskID

/-- `runningAgents.markRunning`: record the task as running and remember
its runner. -/
def RunningAgents.markRunning (r : RunningAgents) (taskID : String) (runner : Nat) :
    RunningAgents :=
  { r with
    tasks := fun x => if x = taskID then true else r.tasks x
    runners := fun x => if x = taskID then some runner else r.runners x }

/-- `runningAgents.markDone`: delete the three per-task entries, then
non-blocking send of the task id on `doneCh` (capacity 100; dropped when
full). -/
def RunningAgents.markDone (r : RunningAgents) (taskID : String) : RunningAgents :=
  { tasks := fun x => if x = taskID then false else r.tasks x
    runners := fun x => if x = taskID then none else r.runners x
    stoppedByUser := fun x => if x = taskID then false else r.stoppedByUser x
    doneCh := if r.doneCh.length < 100 then r.doneCh ++ [taskID] else r.doneCh }

/-- `runningAgents.markStoppedByUser`. -/
def RunningAgents.markStoppedByUser (r : RunningAgents) (taskID : String) : RunningAgents :=
  { r with stoppedByUser := fun x => if x = taskID then true else r.stoppedByUser x }

/-- `runningAgents.wasStoppedByUser`. -/
def RunningAgents.wasStoppedByUser (r : RunningAgents) (taskID : String) : Bool :=
  r.stoppedByUser taskID

/-- The async-mode handling of one selected task in `runWorker`
(headless.go:310-322): if an agent is already running for the id, the
selection is silently skipped (the loop just sleeps and continues);
otherwise `startTask` → `spawnAgent` marks it running with a fresh runner
and dispatches. The returned flag records whether a dispatch happened. -/
def asyncHandleSelected (r : RunningAgents) (taskID : String) (runner : Nat) :
    RunningAgents × Bool :=
  if r.isRunning taskID then (r, false)
  else (r.markRunning taskID runner, true)

/-- Fold `asyncHandleSelected` over a sequence of selections, counting
dispatches. -/
def asyncHandleAll (r : RunningAgents) : List (String × Nat) → RunningAgents × Nat
  | [] => (r, 0)
  | (id, k) :: rest =>
    let step := asyncHandleSelected r id k
    let restRes := asyncHandleAll step.1 rest
    (restRes.1, (if step.2 then 1 else 0) + restRes.2)

/-! ## Completion handling (`cmd/headless.go` `spawnAgent`,
`workflow/workflow.go`) -/

/-- `Workflow.ResetToPlanning` writes this status (workflow.go:65-67). -/
def workflowResetToPlanning : String := "planning"

/-- `Workflow.MarkComplete` writes this status (workflow.go:48-50). -/
def workflowMarkComplete : String := "done"

/-- `Workflow.StartWorking` writes this status (workflow.go:40-42). -/
def workflowStartWorking : String := "in_progress"

/-- The completion goroutine of `spawnAgent` (headless.go:402-425): read
the stop-requested flag before `markDone` clears it, clear the per-task
records, then either reset to planning (user stop), mark complete (exit
code 0), or issue no status write at all (failure). The second component
is the board status write the handler issues, if any. -/
def onAgentCompleted (r : RunningAgents) (taskID : String) (exitCode : Int) :
    RunningAgents × Option String :=
  let stopped := r.wasStoppedByUser taskID
  let r2 := r.markDone taskID
  if stopped then (r2, some workflowResetToPlanning)
  else if exitCode = 0 then (r2, some workflowMarkComplete)
  else (r2, none)

/-- Applying an optional status write to a task's current board status. -/
def applyStatusWrite (cur : String) : Option String → String
  | none => cur
  | some st => st

/-! ## Agent cancellation (agent sources: `ClaudeCode.Cancel` in its
process-tree form, with the unix `killProcessTree` helper)

The current `Cancel` captures pid and process under the lock, sends the
graceful tree signal, and schedules the forced kill on a background
goroutine that sleeps 3 seconds and re-checks `c.running`; the method
itself returns at once. We embed it as the timed trace of signal actions
it produces, parameterised by the facts the code branches on: whether the
agent was running, whether each group signal fails, and whether the
process is still running when the timer fires. -/

/-- Signal strength: `SIGINT`/`os.Interrupt` vs `SIGKILL`/`Kill`. -/
inductive SigKind where
  | interrupt
  | kill
  deriving DecidableEq, Repr

/-- Signal destination: the whole process group (negative-pid kill) or
the root process directly. -/
inductive SigTarget where
  | group
  | root
  deriving DecidableEq, Repr

/-- One emitted signal. -/
structure SigAction where
  target : SigTarget
  kind : SigKind
  deriving DecidableEq, Repr

/-- `killProcessTree` (unix build): choose `SIGKILL` when forcing,
`SIGINT` otherwise; signal the process group; if the group signal fails,
fall back to signalling the root process directly with the same
strength. -/
def killProcessTree (force : Bool) (groupFails : Bool) : List SigAction :=
  let k := if force then SigKind.kill else SigKind.interrupt
  if groupFails then [⟨.group, k⟩, ⟨.root, k⟩] else [⟨.group, k⟩]

/-- The escalation timer of `Cancel`: 3 seconds. -/
def cancelDelayMs : Nat := 3000

/-- What a `Cancel` call does, as a timed trace: each action tagged with
the milliseconds after the call at which it is issued, plus the time at
which the call returns to the caller. -/
structure CancelBehavior where
  trace : List (Nat × SigAction)
  returnsAtMs : Nat
  deriving DecidableEq, Repr

/-- `ClaudeCode.Cancel`: nothing when not running; otherwise the graceful
tree signal immediately, and — on the background timer only — the forced
tree kill at 3000 ms provided the process is still running then. The call
returns at time 0 in every case: the sleep and the forced kill happen on
the spawned goroutine, never on the caller. -/
def ClaudeCodeCancel (running : Bool) (gFailGraceful gFailForce : Bool)
    (stillRunningAt3s : Bool) : CancelBehavior :=
  if !running then ⟨[], 0⟩
  else
    ⟨(killProcessTree false gFailGraceful).map (fun a => (0, a)) ++
      (if stillRunningAt3s then
        (killProcessTree true gFailForce).map (fun a => (cancelDelayMs, a))
      else []),
     0⟩

/-! ## Bounded-queue overflow policies (`sse/subscriber.go` `sendEvent`,
agent runner `streamOutput`)

Both pushes are non-blocking `select` statements in Go; as functions of
the buffered contents they are total — the producer never waits — and
differ exactly in which side of the queue loses an element when full. -/

/-- An SSE event (`sse.Event`). -/
structure Event where
  type : String
  data : String
  deriving DecidableEq, Repr

/-- One line of agent output (`agent.OutputLine`); the timestamp is an
abstract tick. -/
structure OutputLine where
  text : String
  isStderr : Bool
  timestamp : Nat
  deriving DecidableEq, Repr

/-- The subscriber's event channel capacity (`make(chan Event, 100)`). -/
def eventQueueCapacity : Nat := 100

/-- The runner's output channel capacity (`make(chan OutputLine, 1000)`). -/
def outputQueueCapacity : Nat := 1000

/-- `Subscriber.sendEvent`: non-blocking send; when the channel is full
the arriving event is dropped and the buffer is untouched. -/
def sendEvent (buf : List Event) (e : Event) : List Event :=
  if buf.length < eventQueueCapacity then buf ++ [e] else buf

/-- The runner's `streamOutput` push: non-blocking send; when the channel
is full, receive one buffered line (the oldest) to make room and send the
new line; the inner `default` (buffer empty) can only fire when there is
nothing to evict. -/
def pushOutputLine (buf : List OutputLine) (l : OutputLine) : List OutputLine :=
  if buf.length < outputQueueCapacity then buf ++ [l]
  else
    match buf with
    | [] => buf
    | _ :: rest => rest ++ [l]

/-! ## SSE stream parsing (`sse/subscriber.go` `connect`)

The scanner loop of `connect` reads one line at a time and mutates a
`currentEvent`. We embed a line as its character list (Go iterates
strings; the protocol's field names are ASCII) and the loop body as a
function from the in-progress event and the line to the new in-progress
event plus the event emitted on that line, if any. -/

/-- The in-progress (or emitted) event of the scanner loop: its `Type`
and `Data` strings as character lists. -/
structure StreamEvent where
  type : List Char
  data : List Char
  deriving DecidableEq, Repr

/-- `strings.HasPrefix(line, pat)` over character lists (pattern first). -/
def hasPfx : List Char → List Char → Bool
  | [], _ => true
  | _ :: _, [] => false
  | p :: ps, c :: cs => if p = c then hasPfx ps cs else false

/-- The characters `unicode.IsSpace` recognises in Latin-1 — what
`strings.TrimSpace` trims: space, tab, newline, vertical tab, form feed,
carriage return, next line, non-breaking space. -/
def isSpaceChar (c : Char) : Bool :=
  c = ' ' || c = '\t' || c = '\n' || c = '\r' ||
  c.toNat = 11 || c.toNat = 12 || c.toNat = 133 || c.toNat = 160

/-- `strings.TrimSpace`: strip the space characters from both ends. -/
def trimSpaceChars (s : List Char) : List Char :=
  ((s.dropWhile isSpaceChar).reverse.dropWhile isSpaceChar).reverse

/-- The field name `"data:"`. -/
def dataFieldPfx : List Char := ['d', 'a', 't', 'a', ':']

/-- The field name `"event:"`. -/
def eventFieldPfx : List Char := ['e', 'v', 'e', 'n', 't', ':']

/-- The field name `"id:"`. -/
def idFieldPfx : List Char := ['i', 'd', ':']

/-- The field name `"retry:"`. -/
def retryFieldPfx : List Char := ['r', 'e', 't', 'r', 'y', ':']

/-- The comment marker `":"`. -/
def commentPfx : List Char := [':']

/-- The default event type `"message"`. -/
def messageTypeChars : List Char := ['m', 'e', 's', 's', 'a', 'g', 'e']

/-- One iteration of the scanner loop of `connect`
(subscriber.go:179-213): blank line — emit the current event exactly when
its data is non-empty (defaulting the type to `"message"`) and reset;
`data:` — trim the remainder and accumulate, joining to prior data with a
newline; `event:` — set the type to the trimmed remainder; `id:`,
`retry:` and comment lines — recognised and ignored; anything else falls
through the `if`/`else if` chain untouched. -/
def processLine (cur : StreamEvent) (line : List Char) :
    StreamEvent × Option StreamEvent :=
  if line = [] then
    if !(cur.data = []) then
      ({ type := [], data := [] },
        some { type := if cur.type = [] then messageTypeChars else cur.type,
               data := cur.data })
    else (cur, none)
  else if hasPfx dataFieldPfx line then
    let d := trimSpaceChars (line.drop dataFieldPfx.length)
    if !(cur.data = []) then ({ cur with data := cur.data ++ '\n' :: d }, none)
    else ({ cur with data := d }, none)
  else if hasPfx eventFieldPfx line then
    ({ cur with type := trimSpaceChars (line.drop eventFieldPfx.length) }, none)
  else if hasPfx idFieldPfx line then (cur, none)
  else if hasPfx retryFieldPfx line then (cur, none)
  else if hasPfx commentPfx line then (cur, none)
  else (cur, none)

/-- The whole scanner loop: fold `processLine` over the lines, collecting
the emitted events in order, starting from the zero-valued
`currentEvent`. -/
def processLines (cur : StreamEvent) : List (List Char) → List StreamEvent
  | [] => []
  | l :: ls =>
    let st := processLine cur l
    (match st.2 with
     | some ev => [ev]
     | none => []) ++ processLines st.1 ls

/-! ## Reconnect backoff and polling fallback (`sse/subscriber.go` `run`,
`handleReconnect`, `resetBackoff`, `pollOnce`)

The failure-recovery state is the pair `(reconnectDelay,
consecutiveFailures)`. One iteration of `run` either attempts the stream
(failures below the threshold) or polls. We embed each state-changing
outcome of an iteration as an event: a failed connect attempt (also an
established stream that later drops — `connect` returns an error either
way, after `resetBackoff` ran at establishment), a successful connection,
a successful poll (HTTP 200, `resetBackoff`), a failed poll (no state
change). -/

structure SubBackoff where
  reconnectDelayMs : Nat
  consecutiveFailures : Nat
  deriving DecidableEq, Repr

/-- `maxReconnectDelay`: 30 seconds. -/
def maxReconnectDelayMs : Nat := 30000

/-- `maxFailuresBeforePolling`: 5. -/
def maxFailuresBeforePolling : Nat := 5

/-- `pollingInterval`: 5 seconds — the fixed wait between polls once the
loop has fallen back to polling. -/
def pollingIntervalMs : Nat := 5000

/-- `NewSubscriber`: reconnect delay 1 second, zero failures. -/
def initialBackoff : SubBackoff := ⟨1000, 0⟩

/-- `handleReconnect`: (after waiting the current delay) double the delay
and clamp it at the maximum. -/
def handleReconnect (s : SubBackoff) : SubBackoff :=
  let d := s.reconnectDelayMs * 2
  { s with reconnectDelayMs := if d > maxReconnectDelayMs then maxReconnectDelayMs else d }

/-- `resetBackoff`: delay back to 1 second, failure counter to zero. -/
def resetBackoff (_ : SubBackoff) : SubBackoff := ⟨1000, 0⟩

/-- The `run`-loop branch condition: poll instead of attempting the
stream once the failure count reaches the threshold. -/
def usesPolling (s : SubBackoff) : Bool :=
  decide (s.consecutiveFailures ≥ maxFailuresBeforePolling)

/-- The state-changing outcomes of one `run` iteration. -/
inductive SubEvent where
  | connectFailed
  | connected
  | pollSucceeded
  | pollFailed
  deriving DecidableEq, Repr

/-- Effect of one outcome on the backoff state, as `run` applies it:
a connect error increments the failure counter then runs
`handleReconnect`; an established connection runs `resetBackoff`
(subscriber.go:163); a successful poll runs `resetBackoff`
(subscriber.go:287); a failed poll changes nothing. -/
def applyEvent (s : SubBackoff) : SubEvent → SubBackoff
  | .connectFailed =>
    handleReconnect { s with consecutiveFailures := s.consecutiveFailures + 1 }
  | .connected => resetBackoff s
  | .pollSucceeded => resetBackoff s
  | .pollFailed => s

/-- The state after `k` consecutive failed connect attempts from a fresh
subscriber. -/
def afterFailures : Nat → SubBackoff
  | 0 => initialBackoff
  | k + 1 => applyEvent (afterFailures k) .connectFailed

/-! ## Subscriber lifecycle (`sse/subscriber.go` `Start`, `Stop`)

The lifecycle state: the `running` flag, how many times the `done`
channel has been closed (a Go channel may be closed at most once — a
second close panics), how many run loops have been spawned, and the
identity of the `events` channel created at construction (never
replaced). -/

structure SubLifecycle where
  running : Bool
  doneCloseCount : Nat
  loopsSpawned : Nat
  eventsChan : Nat
  deriving DecidableEq, Repr

/-- A freshly constructed subscriber. -/
def newSubLifecycle : SubLifecycle := ⟨false, 0, 0, 0⟩

/-- `Subscriber.Start` under the mutex: if already running, return the
events channel and do nothing; otherwise set `running` and spawn the run
loop. -/
def subStart (s : SubLifecycle) : SubLifecycle :=
  if s.running then s
  else { s with running := true, loopsSpawned := s.loopsSpawned + 1 }

/-- The value `Start` returns: always the `events` channel of the
subscriber, in both branches. -/
def subStartReturn (s : SubLifecycle) : Nat := s.eventsChan

/-- `Subscriber.Stop` under the mutex: a no-op unless running; otherwise
clear `running` and close the `done` channel. -/
def subStop (s : SubLifecycle) : SubLifecycle :=
  if !s.running then s
  else { s with running := false, doneCloseCount := s.doneCloseCount + 1 }

inductive SubOp where
  | start
  | stop
  deriving DecidableEq, Repr

/-- Apply a sequence of `Start`/`Stop` calls in order. -/
def applyOps (s : SubLifecycle) : List SubOp → SubLifecycle
  | [] => s
  | op :: rest =>
    applyOps (match op with | .start => subStart s | .stop => subStop s) rest

/-- A call sequence with no restart: once a `Stop` occurs, only `Stop`s
follow. -/
def noRestart : List SubOp → Bool
  | [] => true
  | .start :: rest => noRestart rest
  | .stop :: rest => rest.all (fun op => decide (op = .stop))

/-! ## Theorems -/

theorem goLeChars_refl (s : List Char) : goLeChars s s := by
  induction s with
  | nil => rfl
  | cons a as ih => simpa [goLeChars, lt_irrefl] using ih

theorem goLeChars_total (s t : List Char) : goLeChars s t || goLeChars t s := by
  induction s generalizing t with
  | nil => simp [goLeChars]
  | cons a as ih =>
    cases t with
    | nil => simp [goLeChars]
    | cons b bs =>
      rcases lt_trichotomy a b with h | h | h
      · simp [goLeChars, h]
      · subst h
        simp only [goLeChars, lt_irrefl, if_false]
        simpa using ih bs
      · simp [goLeChars, h, not_lt_of_gt h, lt_asymm h]

theorem goLeChars_trans :
    ∀ (s t u : List Char), goLeChars s t → goLeChars t u → goLeChars s u := by
  intro s
  induction s with
  | nil => intro t u _ _; simp [goLeChars]
  | cons a as ih =>
    intro t u h1 h2
    cases t with
    | nil => simp [goLeChars] at h1
    | cons b bs =>
      cases u with
      | nil => simp [goLeChars] at h2
      | cons c cs =>
        simp only [goLeChars] at h1 h2 ⊢
        rcases lt_trichotomy a b with hab | hab | hab
        · rcases lt_trichotomy b c with hbc | hbc | hbc
          · simp [lt_trans hab hbc]
          · subst hbc; simp [hab]
          · simp [hbc, lt_asymm hbc] at h2
        · subst hab
          rcases lt_trichotomy a c with hac | hac | hac
          · simp [hac]
          · subst hac
            simp only [lt_irrefl, if_false] at h1 h2 ⊢
            exact ih bs cs h1 h2
          · simp [hac, lt_asymm hac] at h2
        · simp [hab, lt_asymm hab] at h1

/-! ## Selection lemmas -/

theorem descById_trans {a b c : Task} (h1 : descById a b = true) (h2 : descById b c = true) :
    descById a c = true :=
  goLeChars_trans c.id.data b.id.data a.id.data h2 h1

theorem descById_of_not {a b : Task} (h : ¬ descById a b = true) : descById b a = true := by
  rcases Bool.or_eq_true_iff.mp (goLeChars_total b.id.data a.id.data) with h1 | h1
  · exact absurd h1 h
  · exact h1

theorem insertDescById_perm (x : Task) (l : List Task) :
    (insertDescById x l).Perm (x :: l) := by
  induction l with
  | nil => simp [insertDescById]
  | cons y ys ih =>
    by_cases h : descById x y = true
    · simp [insertDescById, h]
    · simp only [insertDescById, h, if_false, Bool.false_eq_true]
      exact (ih.cons y).trans (List.Perm.swap x y ys)

theorem insertDescById_sorted (x : Task) (l : List Task)
    (hl : l.Pairwise (fun a b => descById a b = true)) :
    (insertDescById x l).Pairwise (fun a b => descById a b = true) := by
  induction l with
  | nil => simp [insertDescById]
  | cons y ys ih =>
    rcases List.pairwise_cons.mp hl with ⟨hy, hys⟩
    by_cases h : descById x y = true
    · simp only [insertDescById, h, if_true]
      refine List.pairwise_cons.mpr ⟨?_, hl⟩
      intro b hb
      rcases List.mem_cons.mp hb with hb | hb
      · subst hb; exact h
      · exact descById_trans h (hy b hb)
    · have hyx : descById y x = true := descById_of_not h
      simp only [insertDescById, h, if_false, Bool.false_eq_true]
      refine List.pairwise_cons.mpr ⟨?_, ih hys⟩
      intro b hb
      rcases List.mem_cons.mp ((insertDescById_perm x ys).mem_iff.mp hb) with hb2 | hb2
      · subst hb2; exact hyx
      · exact hy b hb2

theorem sortDescById_perm (l : List Task) : (sortDescById l).Perm l := by
  induction l with
  | nil => simp [sortDescById]
  | cons x xs ih => exact (insertDescById_perm x (sortDescById xs)).trans (ih.cons x)

theorem sortDescById_sorted (l : List Task) :
    (sortDescById l).Pairwise (fun a b => descById a b = true) := by
  induction l with
  | nil => simp [sortDescById]
  | cons x xs ih => exact insertDescById_sorted x (sortDescById xs) ih

theorem eligibleTasks_sub (tasks : List Task) (ids : List String) {t : Task}
    (ht : t ∈ eligibleTasks tasks ids) : t ∈ tasks := by
  exact (List.mem_filter.mp (List.mem_filter.mp ht).1).1

/-- `selectBestTask`, rephrased through the unsorted candidate set: on a
non-empty input it is the head of the descending sort of the eligible
tasks. Definitional once the emptiness test is discharged. -/
theorem selectBestTask_eq (tasks : List Task) (ids : List String) (h : ¬ tasks = []) :
    selectBestTask tasks ids =
      match sortDescById (eligibleTasks tasks ids) with
      | [] => .error .noTask
      | c :: _ => .ok c := by
  simp only [selectBestTask, if_neg h]
  rfl

/-- `selectBestTask` on a non-empty candidate set returns a candidate that
is greatest by id among all candidates. -/
theorem selectBestTask_max (tasks : List Task) (ids : List String)
    (hne : eligibleTasks tasks ids ≠ []) :
    ∃ c, selectBestTask tasks ids = .ok c ∧ c ∈ eligibleTasks tasks ids ∧
      ∀ u ∈ eligibleTasks tasks ids, goStringLe u.id c.id = true := by
  have htasks : ¬ tasks = [] := by
    intro h
    rcases List.exists_mem_of_ne_nil _ hne with ⟨t, ht⟩
    have := eligibleTasks_sub tasks ids ht
    simp [h] at this
  rcases hs : sortDescById (eligibleTasks tasks ids) with _ | ⟨c, rest⟩
  · rcases List.exists_mem_of_ne_nil _ hne with ⟨t, ht⟩
    have := (sortDescById_perm (eligibleTasks tasks ids)).symm.mem_iff.mp ht
    simp [hs] at this
  refine ⟨c, ?_, ?_, ?_⟩
  · rw [selectBestTask_eq tasks ids htasks, hs]
  · have hc : c ∈ sortDescById (eligibleTasks tasks ids) := by simp [hs]
    exact (sortDescById_perm (eligibleTasks tasks ids)).mem_iff.mp hc
  · intro u hu
    have hu2 : u ∈ sortDescById (eligibleTasks tasks ids) :=
      (sortDescById_perm (eligibleTasks tasks ids)).symm.mem_iff.mp hu
    rw [hs] at hu2
    have hsorted := sortDescById_sorted (eligibleTasks tasks ids)
    rw [hs] at hsorted
    rcases List.mem_cons.mp hu2 with hu3 | hu3
    · rw [hu3]; exact goLeChars_refl c.id.data
    · exact (List.pairwise_cons.mp hsorted).1 u hu3

/-- If `selectBestTask` returns a task, that task came from the input list,
has a non-empty epic id, and its epic id is in the auto set. -/
theorem selectBestTask_ok (tasks : List Task) (ids : List String) {c : Task}
    (h : selectBestTask tasks ids = .ok c) :
    c ∈ tasks ∧ c.epicID ≠ "" ∧ c.epicID ∈ ids := by
  by_cases htasks : tasks = []
  · simp [selectBestTask, htasks] at h
  rw [selectBestTask_eq tasks ids htasks] at h
  rcases hs : sortDescById (eligibleTasks tasks ids) with _ | ⟨c0, rest⟩ <;> rw [hs] at h
  · simp at h
  · simp only [Except.ok.injEq] at h
    subst h
    have hc : c0 ∈ sortDescById (eligibleTasks tasks ids) := by simp [hs]
    have hc2 := (sortDescById_perm _).mem_iff.mp hc
    rcases List.mem_filter.mp hc2 with ⟨hc3, _⟩
    rcases List.mem_filter.mp hc3 with ⟨hmem, hcond⟩
    simp only [Bool.and_eq_true, Bool.not_eq_true', decide_eq_false_iff_not,
      List.any_eq_true, decide_eq_true_eq] at hcond
    rcases hcond with ⟨hne, e, he, heq⟩
    exact ⟨hmem, hne, heq ▸ he⟩

/-- One step of the epic-lookup loop justified: the loop either leaves the
accumulator alone or returns the project id and auto flag of an actual
epic with the sought id. -/
theorem findEpicAux_spec (b : Board) (eid : String) :
    ∀ (ps : List Project) (acc : String × Bool),
      findEpicAux b eid ps acc = acc ∨
      ∃ p ∈ ps, ∃ e ∈ b.ListEpics p.id, e.id = eid ∧ findEpicAux b eid ps acc = (p.id, e.auto) := by
  intro ps
  induction ps with
  | nil => intro acc; left; rfl
  | cons p rest ih =>
    intro acc
    rcases hf : (b.ListEpics p.id).find? (fun e => decide (e.id = eid)) with _ | e
    · simp only [findEpicAux, hf]
      by_cases hacc : acc.1 = ""
      · rcases ih acc with h | ⟨p2, hp2, e2, he2, hid2, hr⟩
        · left; simpa [hacc] using h
        · right
          exact ⟨p2, List.mem_cons_of_mem _ hp2, e2, he2, hid2, by simpa [hacc] using hr⟩
      · left; simp [hacc]
    · have he : e ∈ b.ListEpics p.id := List.mem_of_find?_eq_some hf
      have hid : e.id = eid := by simpa using List.find?_some hf
      simp only [findEpicAux, hf]
      by_cases hpid : p.id = ""
      · rcases ih (p.id, e.auto) with h | ⟨p2, hp2, e2, he2, hid2, hr⟩
        · right
          exact ⟨p, List.mem_cons_self p rest, e, he, hid, by simpa [hpid] using h⟩
        · right
          exact ⟨p2, List.mem_cons_of_mem _ hp2, e2, he2, hid2, by simpa [hpid] using hr⟩
      · right
        exact ⟨p, List.mem_cons_self p rest, e, he, hid, by simp [hpid]⟩

/-- An id in `getAutoEpicIDs` is witnessed by an auto epic of that project. -/
theorem getAutoEpicIDs_witness (b : Board) (pid : String) {eid : String}
    (h : eid ∈ getAutoEpicIDs b pid) :
    ∃ e ∈ b.epics, e.id = eid ∧ e.auto = true ∧ e.projectID = pid := by
  simp only [getAutoEpicIDs, List.mem_map, List.mem_filter] at h
  rcases h with ⟨e, ⟨hmem, hauto⟩, hid⟩
  rcases List.mem_filter.mp hmem with ⟨he, hpid⟩
  exact ⟨e, he, hid, hauto, by simpa using hpid⟩

/-- In the three filtering scopes, a returned task always has a non-empty
epic id witnessed by an `auto = true` epic on the board. -/
theorem selectTask_ok_auto_witness (b : Board) (s : Selector) (t : Task)
    (hscope : s.taskID = "") (h : SelectTask b s = .ok t) :
    t.epicID ≠ "" ∧ ∃ e ∈ b.epics, e.id = t.epicID ∧ e.auto = true := by
  by_cases hepic : s.epicID = ""
  · by_cases hproj : s.projectID = ""
    · -- global scope
      simp only [SelectTask, hscope, hepic, hproj, decide_True, Bool.not_true,
        Bool.false_eq_true, if_false, selectFromAllProjects] at h
      by_cases hps : b.projects = []
      · simp [hps] at h
      simp only [hps, if_false] at h
      rcases selectBestTask_ok _ _ h with ⟨_, hne, hid⟩
      rcases List.mem_flatMap.mp hid with ⟨p, _, hin⟩
      rcases getAutoEpicIDs_witness b p.id hin with ⟨e, he, heq, hauto, _⟩
      exact ⟨hne, e, he, heq, hauto⟩
    · -- project scope
      simp only [SelectTask, hscope, hepic, hproj, decide_True, Bool.not_true,
        Bool.false_eq_true, if_false, if_true, selectFromProject] at h
      rcases selectBestTask_ok _ _ h with ⟨_, hne, hid⟩
      rcases getAutoEpicIDs_witness b s.projectID hid with ⟨e, he, heq, hauto, _⟩
      exact ⟨hne, e, he, heq, hauto⟩
  · -- epic scope
    simp only [SelectTask, hscope, hepic, decide_True, decide_False, Bool.not_true,
      Bool.not_false, if_true, Bool.false_eq_true, if_false, selectFromEpic] at h
    by_cases hpid : (findEpicAux b s.epicID b.projects ("", false)).1 = ""
    · simp [hpid] at h
    simp only [hpid, if_false] at h
    by_cases hauto : (findEpicAux b s.epicID b.projects ("", false)).2 = true
    · simp only [hauto, Bool.not_true, Bool.false_eq_true, if_false] at h
      rcases selectBestTask_ok _ _ h with ⟨_, hne, hid⟩
      have hid2 : t.epicID = s.epicID := by simpa using hid
      rcases findEpicAux_spec b s.epicID b.projects ("", false) with hcase | hcase
      · rw [hcase] at hpid
        exact absurd rfl hpid
      · rcases hcase with ⟨p, _, e, he, heid, hr⟩
        have hepmem : e ∈ b.epics := (List.mem_filter.mp he).1
        refine ⟨hne, e, hepmem, by rw [heid, hid2], ?_⟩
        have hea : e.auto = (findEpicAux b s.epicID b.projects ("", false)).2 := by
          rw [hr]
        rw [hea, hauto]
    · simp [hauto] at h

/-- In the three filtering scopes, the selection result is the maximum by
Go string order over the scope's candidate set. -/
theorem selectTask_max_of_candidates (b : Board) (s : Selector)
    (hscope : s.taskID = "") (hne : scopeCandidates b s ≠ []) :
    ∃ c, SelectTask b s = .ok c ∧ c ∈ scopeCandidates b s ∧
      ∀ u ∈ scopeCandidates b s, goStringLe u.id c.id = true := by
  by_cases hepic : s.epicID = ""
  · by_cases hproj : s.projectID = ""
    · -- global scope
      simp only [SelectTask, scopeCandidates, hscope, hepic, hproj, decide_True,
        Bool.not_true, Bool.false_eq_true, if_false, selectFromAllProjects] at hne ⊢
      by_cases hps : b.projects = []
      · simp [hps, eligibleTasks] at hne
      simp only [hps, if_false]
      exact selectBestTask_max _ _ hne
    · -- project scope
      simp only [SelectTask, scopeCandidates, hscope, hepic, hproj, decide_True,
        Bool.not_true, Bool.false_eq_true, if_false, if_true, selectFromProject] at hne ⊢
      exact selectBestTask_max _ _ hne
  · -- epic scope
    simp only [SelectTask, scopeCandidates, hscope, hepic, decide_True, decide_False,
      Bool.not_true, Bool.not_false, if_true, Bool.false_eq_true, if_false,
      selectFromEpic] at hne ⊢
    by_cases hpid : (findEpicAux b s.epicID b.projects ("", false)).1 = ""
    · simp [hpid] at hne
    simp only [hpid, if_false] at hne ⊢
    by_cases hauto : (findEpicAux b s.epicID b.projects ("", false)).2 = true
    · simp only [hauto, Bool.not_true, Bool.false_eq_true, if_false] at hne ⊢
      exact selectBestTask_max _ _ hne
    · simp [hauto] at hne

/-! ## Claim theorems: task selection -/

/-- Claim C2: in every scope except task-id scope, `SelectTask` never
returns a task with no owning epic, never returns a task whose owning epic
has `auto = false` (owning epic being well defined when epic ids are
unique), and in epic-id scope an `auto = false` epic yields the
"none available" outcome (an error `errors.Is`-equal to
`ErrNoTaskAvailable`) rather than a task. -/
theorem selectTask_only_auto_epics :
    (∀ (b : Board) (s : Selector) (t : Task), s.taskID = "" → SelectTask b s = .ok t →
      t.epicID ≠ "" ∧ (∃ e ∈ b.epics, e.id = t.epicID ∧ e.auto = true) ∧
      ((∀ e1 ∈ b.epics, ∀ e2 ∈ b.epics, e1.id = e2.id → e1 = e2) →
        ∀ e ∈ b.epics, e.id = t.epicID → e.auto = true)) ∧
    (∀ (b : Board) (s : Selector), s.taskID = "" → ¬ s.epicID = "" →
      (findEpicAux b s.epicID b.projects ("", false)).1 ≠ "" →
      (findEpicAux b s.epicID b.projects ("", false)).2 = false →
      SelectTask b s = .error (.epicNotAuto s.epicID) ∧
        (SelErr.epicNotAuto s.epicID).isNoTaskAvailable = true) := by
  constructor
  · intro b s t hscope h
    rcases selectTask_ok_auto_witness b s t hscope h with ⟨hne, e0, he0, hid0, hauto0⟩
    refine ⟨hne, ⟨e0, he0, hid0, hauto0⟩, ?_⟩
    intro huniq e he hid
    have : e = e0 := huniq e he e0 he0 (by rw [hid, hid0])
    rw [this, hauto0]
  · intro b s hscope hepic hfound hmanual
    constructor
    · simp only [SelectTask, hscope, hepic, decide_True, decide_False, Bool.not_true,
        Bool.not_false, if_true, Bool.false_eq_true, if_false, selectFromEpic]
      simp [hfound, hmanual]
    · rfl

/-- Witness for C2 at concrete boards: the global scope on
`boardTwoProjects` only yields tasks of auto epics, and epic scope on
`boardManualEpic` (whose epic has `auto = false`) yields the
"none available" outcome. -/
theorem selectTask_only_auto_epics_witness :
    ((mkTask "task-z" "epic-2" "todo" false "proj-2").epicID ≠ "" ∧
      (∃ e ∈ boardTwoProjects.epics,
        e.id = (mkTask "task-z" "epic-2" "todo" false "proj-2").epicID ∧ e.auto = true) ∧
      (∀ e ∈ boardTwoProjects.epics,
        e.id = (mkTask "task-z" "epic-2" "todo" false "proj-2").epicID → e.auto = true)) ∧
    (SelectTask boardManualEpic ⟨"", "epic-1", ""⟩ = .error (.epicNotAuto "epic-1") ∧
      (SelErr.epicNotAuto "epic-1").isNoTaskAvailable = true) := by
  have h1 := selectTask_only_auto_epics.1 boardTwoProjects ⟨"", "", ""⟩
    (mkTask "task-z" "epic-2" "todo" false "proj-2") rfl (by rfl)
  have h2 := selectTask_only_auto_epics.2 boardManualEpic ⟨"", "epic-1", ""⟩ rfl
    (by decide) (by decide) (by decide)
  exact ⟨⟨h1.1, h1.2.1, h1.2.2 (by decide)⟩, h2⟩

/-- Claim C3: whenever the scope's eligible candidate set is non-empty,
`SelectTask` returns a candidate whose id is greatest in Go string order
among all candidates of the scope. -/
theorem selectTask_greatest_id (b : Board) (s : Selector)
    (hscope : s.taskID = "") (hne : scopeCandidates b s ≠ []) :
    ∃ c, SelectTask b s = .ok c ∧ c ∈ scopeCandidates b s ∧
      ∀ u ∈ scopeCandidates b s, goStringLe u.id c.id = true :=
  selectTask_max_of_candidates b s hscope hne

/-- Witness for C3, realising the spec's scenario (c): eligible tasks
`task-a` (proj-1) and `task-z` (proj-2) under global scope; the returned
maximum is `task-z`. -/
theorem selectTask_greatest_id_witness :
    (scopeCandidates boardTwoProjects ⟨"", "", ""⟩ ≠ [] ∧
      ∃ c, SelectTask boardTwoProjects ⟨"", "", ""⟩ = .ok c ∧
        c ∈ scopeCandidates boardTwoProjects ⟨"", "", ""⟩ ∧
        ∀ u ∈ scopeCandidates boardTwoProjects ⟨"", "", ""⟩, goStringLe u.id c.id = true) ∧
    SelectTask boardTwoProjects ⟨"", "", ""⟩ =
      .ok (mkTask "task-z" "epic-2" "todo" false "proj-2") :=
  ⟨⟨by decide, selectTask_greatest_id boardTwoProjects ⟨"", "", ""⟩ rfl (by decide)⟩, by rfl⟩

/-- Counterexample to C9 as stated: the "task not found" error is not
distinct from the "none available" outcome by the discrimination the code
itself uses — it wraps `ErrNoTaskAvailable` with `%w`, so
`errors.Is(err, ErrNoTaskAvailable)` classifies both identically (and the
headless loop therefore takes the wait path, not the report path). -/
theorem taskIdScope_notFound_not_distinct :
    SelectTask ⟨[], [], []⟩ ⟨"", "", "task-404"⟩ = .error (.taskNotFound "task-404") ∧
    (SelErr.taskNotFound "task-404").isNoTaskAvailable =
      SelErr.noTask.isNoTaskAvailable := by
  exact ⟨rfl, rfl⟩

/-- Claim C9 (amended): in task-id scope a task with the configured id
found in any project's task list is returned verbatim regardless of
status, blocked flag or epic auto flag; when no project's task list holds
the id, the result is the task-not-found error, which wraps
`ErrNoTaskAvailable` and is therefore classified by `errors.Is` exactly
like "none available". -/
theorem taskIdScope_verbatim_lookup (b : Board) (pj ep tid : String) (htid : tid ≠ "") :
    ((∃ p ∈ b.projects, ∃ t ∈ b.ListTasks p.id {}, t.id = tid) →
      ∃ t, SelectTask b ⟨pj, ep, tid⟩ = .ok t ∧ t.id = tid ∧ t ∈ b.tasks) ∧
    ((¬ ∃ p ∈ b.projects, ∃ t ∈ b.ListTasks p.id {}, t.id = tid) →
      SelectTask b ⟨pj, ep, tid⟩ = .error (.taskNotFound tid) ∧
      (SelErr.taskNotFound tid).isNoTaskAvailable = true) := by
  have hsel : SelectTask b ⟨pj, ep, tid⟩ = fetchSpecificTask b tid := by
    simp [SelectTask, htid]
  constructor
  · intro hfind
    rcases hfind with ⟨p, hp, t, ht, hid⟩
    have hmem : t ∈ b.projects.flatMap (fun q => b.ListTasks q.id {}) :=
      List.mem_flatMap.mpr ⟨p, hp, ht⟩
    rcases hsome : (b.projects.flatMap (fun q => b.ListTasks q.id {})).find?
        (fun u => decide (u.id = tid)) with _ | u
    · rw [List.find?_eq_none] at hsome
      exact absurd (by simpa using hid) (by simpa using hsome t hmem)
    · refine ⟨u, ?_, ?_, ?_⟩
      · rw [hsel]; simp [fetchSpecificTask, hsome]
      · simpa using List.find?_some hsome
      · have := List.mem_of_find?_eq_some hsome
        rcases List.mem_flatMap.mp this with ⟨q, _, hin⟩
        exact (List.mem_filter.mp hin).1
  · intro hnone
    refine ⟨?_, rfl⟩
    rw [hsel]
    rcases hsome : (b.projects.flatMap (fun q => b.ListTasks q.id {})).find?
        (fun u => decide (u.id = tid)) with _ | u
    · simp [fetchSpecificTask, hsome]
    · exfalso
      apply hnone
      have hmem := List.mem_of_find?_eq_some hsome
      rcases List.mem_flatMap.mp hmem with ⟨q, hq, hin⟩
      exact ⟨q, hq, u, hin, by simpa using List.find?_some hsome⟩

/-- Witness for C9: on `boardDoneTask` the task `task-001` — status
`done`, blocked, non-auto epic — is still returned in task-id scope, and
on the empty board the id `task-404` produces the wrapping
task-not-found error. -/
theorem taskIdScope_verbatim_lookup_witness :
    (∃ t, SelectTask boardDoneTask ⟨"", "", "task-001"⟩ = .ok t ∧ t.id = "task-001" ∧
      t ∈ boardDoneTask.tasks) ∧
    (SelectTask ⟨[], [], []⟩ ⟨"", "", "task-404"⟩ = .error (.taskNotFound "task-404") ∧
      (SelErr.taskNotFound "task-404").isNoTaskAvailable = true) :=
  ⟨(taskIdScope_verbatim_lookup boardDoneTask "" "" "task-001" (by decide)).1 (by decide),
   (taskIdScope_verbatim_lookup ⟨[], [], []⟩ "" "" "task-404" (by decide)).2 (by decide)⟩

theorem asyncHandleAll_running (id : String) :
    ∀ (ks : List Nat) (r : RunningAgents), r.tasks id = true →
      asyncHandleAll r (ks.map (fun k => (id, k))) = (r, 0) := by
  intro ks
  induction ks with
  | nil => intro r _; rfl
  | cons k ks ih =>
    intro r hr
    simp only [List.map_cons, asyncHandleAll, asyncHandleSelected, RunningAgents.isRunning,
      hr, if_true]
    simp [ih r hr]

/-- Claim C1: a selection sequence that keeps yielding one task id
dispatches exactly once — the first selection marks the id running,
every later duplicate is skipped by the `isRunning` check — and
`markRunning` on an already-running id leaves the RunningSet (the
is-running map and the stop-requested map) unchanged and triggers no
second dispatch. -/
theorem single_dispatch_per_task :
    (∀ (r : RunningAgents) (id : String) (ks : List Nat), r.tasks id = false → ks ≠ [] →
      (asyncHandleAll r (ks.map (fun k => (id, k)))).2 = 1 ∧
      (asyncHandleAll r (ks.map (fun k => (id, k)))).1.tasks id = true) ∧
    (∀ (r : RunningAgents) (id : String) (k : Nat), r.tasks id = true →
      (r.markRunning id k).tasks = r.tasks ∧
      (r.markRunning id k).stoppedByUser = r.stoppedByUser ∧
      asyncHandleSelected r id k = (r, false)) := by
  constructor
  · intro r id ks hr hne
    rcases ks with _ | ⟨k, ks⟩
    · exact absurd rfl hne
    have hmarked : ((r.markRunning id k).tasks id) = true := by
      simp [RunningAgents.markRunning]
    simp only [List.map_cons, asyncHandleAll, asyncHandleSelected, RunningAgents.isRunning,
      hr, Bool.false_eq_true, if_false]
    rw [asyncHandleAll_running id ks _ hmarked]
    exact ⟨rfl, hmarked⟩
  · intro r id k hr
    refine ⟨?_, rfl, ?_⟩
    · funext x
      by_cases hx : x = id
      · simp [RunningAgents.markRunning, hx, hr]
      · simp [RunningAgents.markRunning, hx]
    · simp [asyncHandleSelected, RunningAgents.isRunning, hr]

/-- Witness for C1: from the fresh state, five duplicate selections of
`task-7` dispatch exactly once, and `markRunning` on the resulting state
is idempotent on the RunningSet. -/
theorem single_dispatch_per_task_witness :
    ((asyncHandleAll newRunningAgents ([0, 1, 2, 3, 4].map (fun k => ("task-7", k)))).2 = 1 ∧
      (asyncHandleAll newRunningAgents
        ([0, 1, 2, 3, 4].map (fun k => ("task-7", k)))).1.tasks "task-7" = true) ∧
    (((newRunningAgents.markRunning "task-7" 0).markRunning "task-7" 9).tasks =
        (newRunningAgents.markRunning "task-7" 0).tasks ∧
      ((newRunningAgents.markRunning "task-7" 0).markRunning "task-7" 9).stoppedByUser =
        (newRunningAgents.markRunning "task-7" 0).stoppedByUser ∧
      asyncHandleSelected (newRunningAgents.markRunning "task-7" 0) "task-7" 9 =
        (newRunningAgents.markRunning "task-7" 0, false)) :=
  ⟨single_dispatch_per_task.1 newRunningAgents "task-7" [0, 1, 2, 3, 4] rfl (by decide),
   single_dispatch_per_task.2 (newRunningAgents.markRunning "task-7" 0) "task-7" 9
     (by simp [newRunningAgents, RunningAgents.markRunning])⟩

/-- Claim C4: on agent completion, a user-requested stop transitions the
task to "planning" and clears its running/stop-requested/runner records;
otherwise exit code 0 transitions it to "done"; otherwise no status write
is issued, so a task that was in_progress stays in_progress. -/
theorem completion_status_transitions (r : RunningAgents) (id : String) (ec : Int) :
    (r.stoppedByUser id = true →
      onAgentCompleted r id ec = (r.markDone id, some "planning") ∧
      (r.markDone id).tasks id = false ∧ (r.markDone id).stoppedByUser id = false ∧
      (r.markDone id).runners id = none) ∧
    (r.stoppedByUser id = false → ec = 0 →
      onAgentCompleted r id ec = (r.markDone id, some "done")) ∧
    (r.stoppedByUser id = false → ¬ ec = 0 →
      onAgentCompleted r id ec = (r.markDone id, none) ∧
      applyStatusWrite workflowStartWorking (onAgentCompleted r id ec).2 = "in_progress") := by
  refine ⟨?_, ?_, ?_⟩
  · intro hstop
    refine ⟨?_, by simp [RunningAgents.markDone], by simp [RunningAgents.markDone],
      by simp [RunningAgents.markDone]⟩
    simp [onAgentCompleted, RunningAgents.wasStoppedByUser, hstop, workflowResetToPlanning]
  · intro hstop hec
    simp [onAgentCompleted, RunningAgents.wasStoppedByUser, hstop, hec, workflowMarkComplete]
  · intro hstop hec
    constructor
    · simp [onAgentCompleted, RunningAgents.wasStoppedByUser, hstop, hec]
    · simp [onAgentCompleted, RunningAgents.wasStoppedByUser, hstop, hec,
        applyStatusWrite, workflowStartWorking]

/-- Witness for C4: the three outcomes at concrete states — a stopped
task goes to planning with records cleared, a clean exit goes to done,
and a failing exit issues no write and leaves in_progress. -/
theorem completion_status_transitions_witness :
    (onAgentCompleted ((newRunningAgents.markRunning "task-1" 0).markStoppedByUser "task-1")
        "task-1" 1 =
      (((newRunningAgents.markRunning "task-1" 0).markStoppedByUser "task-1").markDone "task-1",
        some "planning")) ∧
    (onAgentCompleted (newRunningAgents.markRunning "task-1" 0) "task-1" 0 =
      ((newRunningAgents.markRunning "task-1" 0).markDone "task-1", some "done")) ∧
    (onAgentCompleted (newRunningAgents.markRunning "task-1" 0) "task-1" 2 =
      ((newRunningAgents.markRunning "task-1" 0).markDone "task-1", none) ∧
      applyStatusWrite workflowStartWorking
        (onAgentCompleted (newRunningAgents.markRunning "task-1" 0) "task-1" 2).2 =
        "in_progress") :=
  ⟨((completion_status_transitions
      ((newRunningAgents.markRunning "task-1" 0).markStoppedByUser "task-1") "task-1" 1).1
      (by simp [newRunningAgents, RunningAgents.markRunning, RunningAgents.markStoppedByUser])).1,
   (completion_status_transitions (newRunningAgents.markRunning "task-1" 0) "task-1" 0).2.1
      (by simp [newRunningAgents, RunningAgents.markRunning]) rfl,
   (completion_status_transitions (newRunningAgents.markRunning "task-1" 0) "task-1" 2).2.2
      (by simp [newRunningAgents, RunningAgents.markRunning]) (by decide)⟩

/-- Claim C5: `Cancel` returns without blocking; on a running agent it
sends the graceful interrupt to the whole process group immediately,
falling back to the root process when the group signal fails; the forced
kill is issued exactly when the process is still running 3 seconds later,
and every kill-strength action sits at the 3000 ms mark (the background
timer), never earlier. -/
theorem cancel_escalation (running gFailGraceful gFailForce stillRunningAt3s : Bool) :
    (ClaudeCodeCancel running gFailGraceful gFailForce stillRunningAt3s).returnsAtMs = 0 ∧
    (running = true →
      (0, SigAction.mk .group .interrupt) ∈
        (ClaudeCodeCancel running gFailGraceful gFailForce stillRunningAt3s).trace ∧
      (gFailGraceful = true →
        (0, SigAction.mk .root .interrupt) ∈
          (ClaudeCodeCancel running gFailGraceful gFailForce stillRunningAt3s).trace) ∧
      (stillRunningAt3s = true →
        (cancelDelayMs, SigAction.mk .group .kill) ∈
          (ClaudeCodeCancel running gFailGraceful gFailForce stillRunningAt3s).trace) ∧
      (stillRunningAt3s = true → gFailForce = true →
        (cancelDelayMs, SigAction.mk .root .kill) ∈
          (ClaudeCodeCancel running gFailGraceful gFailForce stillRunningAt3s).trace) ∧
      (stillRunningAt3s = false →
        ∀ a ∈ (ClaudeCodeCancel running gFailGraceful gFailForce stillRunningAt3s).trace,
          a.2.kind ≠ .kill) ∧
      (∀ a ∈ (ClaudeCodeCancel running gFailGraceful gFailForce stillRunningAt3s).trace,
        a.2.kind = .kill → a.1 = cancelDelayMs)) ∧
    (running = false →
      (ClaudeCodeCancel running gFailGraceful gFailForce stillRunningAt3s).trace = []) := by
  cases running <;> cases gFailGraceful <;> cases gFailForce <;> cases stillRunningAt3s <;>
    decide

/-- Witness for C5: an agent that ignores the interrupt (`stillRunningAt3s`)
with group signalling working, and the no-escalation case when the process
exits within the grace period. -/
theorem cancel_escalation_witness :
    (ClaudeCodeCancel true false false true).returnsAtMs = 0 ∧
    (0, SigAction.mk .group .interrupt) ∈ (ClaudeCodeCancel true false false true).trace ∧
    (cancelDelayMs, SigAction.mk .group .kill) ∈ (ClaudeCodeCancel true false false true).trace ∧
    (∀ a ∈ (ClaudeCodeCancel true false false false).trace, a.2.kind ≠ .kill) :=
  ⟨(cancel_escalation true false false true).1,
   ((cancel_escalation true false false true).2.1 rfl).1,
   ((cancel_escalation true false false true).2.1 rfl).2.2.1 rfl,
   ((cancel_escalation true false false false).2.1 rfl).2.2.2.2.1 rfl⟩

/-- Claim C6: at capacity 100 the event queue drops the newcomer and keeps
its buffer unchanged, while at capacity 1000 the output queue evicts its
oldest line and appends the newcomer (staying at capacity); below capacity
both simply append. The two policies are the pure content of the
non-blocking sends, so neither producer ever waits. -/
theorem queue_overflow_policies (evBuf : List Event) (e : Event)
    (outBuf : List OutputLine) (l : OutputLine) :
    eventQueueCapacity = 100 ∧ outputQueueCapacity = 1000 ∧
    (evBuf.length = eventQueueCapacity → sendEvent evBuf e = evBuf) ∧
    (evBuf.length < eventQueueCapacity → sendEvent evBuf e = evBuf ++ [e]) ∧
    (outBuf.length = outputQueueCapacity →
      pushOutputLine outBuf l = outBuf.tail ++ [l] ∧
      (pushOutputLine outBuf l).length = outputQueueCapacity) ∧
    (outBuf.length < outputQueueCapacity → pushOutputLine outBuf l = outBuf ++ [l]) := by
  refine ⟨rfl, rfl, ?_, ?_, ?_, ?_⟩
  · intro h
    simp [sendEvent, h]
  · intro h
    simp [sendEvent, h]
  · intro h
    rcases outBuf with _ | ⟨x, rest⟩
    · simp [outputQueueCapacity] at h
    · have hlt : ¬ (x :: rest).length < outputQueueCapacity := by
        rw [h]
        exact lt_irrefl _
      constructor
      · simp only [pushOutputLine, if_neg hlt, List.tail_cons]
      · have hlen : rest.length + 1 = outputQueueCapacity := by simpa using h
        simp only [pushOutputLine, if_neg hlt]
        simp only [List.length_append, List.length_cons, List.length_nil]
        omega
  · intro h
    simp [pushOutputLine, h]

/-- Witness for C6 at full buffers: a 100-deep event buffer drops the new
event; a 1000-deep output buffer evicts its oldest entry for the new
line. -/
theorem queue_overflow_policies_witness :
    (sendEvent (List.replicate 100 (Event.mk "message" "x")) (Event.mk "message" "new") =
      List.replicate 100 (Event.mk "message" "x")) ∧
    (pushOutputLine (List.replicate 1000 (OutputLine.mk "old" false 0))
        (OutputLine.mk "new" false 1) =
      (List.replicate 1000 (OutputLine.mk "old" false 0)).tail ++
        [OutputLine.mk "new" false 1]) :=
  ⟨(queue_overflow_policies (List.replicate 100 (Event.mk "message" "x"))
      (Event.mk "message" "new") [] (OutputLine.mk "" false 0)).2.2.1
      (by rw [List.length_replicate]; rfl),
   ((queue_overflow_policies [] (Event.mk "" "")
      (List.replicate 1000 (OutputLine.mk "old" false 0))
      (OutputLine.mk "new" false 1)).2.2.2.2.1
      (by rw [List.length_replicate]; rfl)).1⟩

theorem hasPfx_head {p : Char} {ps line : List Char} (h : hasPfx (p :: ps) line = true) :
    ∃ cs, line = p :: cs ∧ hasPfx ps cs = true := by
  cases line with
  | nil => simp [hasPfx] at h
  | cons c cs =>
    by_cases hpc : p = c
    · subst hpc
      refine ⟨cs, rfl, ?_⟩
      simpa [hasPfx] using h
    · simp [hasPfx, hpc] at h

/-- Claim C7: the per-line contract of the stream parser — `data:` lines
accumulate with newline joins, `event:` lines set the type, `id:`,
`retry:` and comment lines are ignored, a blank line emits exactly when
the accumulated data is non-empty (with the type defaulting to
`"message"`) and then resets the accumulator, and an event with empty
data is never emitted. -/
theorem sse_line_parsing :
    (∀ cur : StreamEvent, ¬ cur.data = [] →
      processLine cur [] =
        ({ type := [], data := [] },
          some { type := if cur.type = [] then messageTypeChars else cur.type,
                 data := cur.data })) ∧
    (∀ cur : StreamEvent, cur.data = [] → processLine cur [] = (cur, none)) ∧
    (∀ (cur : StreamEvent) (line : List Char), hasPfx dataFieldPfx line = true →
      processLine cur line =
        ({ cur with
            data :=
              if cur.data = [] then trimSpaceChars (line.drop dataFieldPfx.length)
              else cur.data ++ '\n' :: trimSpaceChars (line.drop dataFieldPfx.length) },
          none)) ∧
    (∀ (cur : StreamEvent) (line : List Char), hasPfx eventFieldPfx line = true →
      processLine cur line =
        ({ cur with type := trimSpaceChars (line.drop eventFieldPfx.length) }, none)) ∧
    (∀ (cur : StreamEvent) (line : List Char),
      hasPfx idFieldPfx line = true ∨ hasPfx retryFieldPfx line = true ∨
        hasPfx commentPfx line = true →
      processLine cur line = (cur, none)) ∧
    (∀ (cur : StreamEvent) (line : List Char) (ev : StreamEvent),
      (processLine cur line).2 = some ev → ¬ ev.data = []) := by
  refine ⟨?_, ?_, ?_, ?_, ?_, ?_⟩
  · intro cur hdata
    simp [processLine, hdata]
  · intro cur hdata
    simp [processLine, hdata]
  · intro cur line hp
    rcases hasPfx_head hp with ⟨cs, hline, _⟩
    subst hline
    have hne : ¬ ('d' :: cs = ([] : List Char)) := by simp
    by_cases hdata : cur.data = []
    · simp [processLine, hne, hp, hdata]
    · simp [processLine, hne, hp, hdata]
  · intro cur line hp
    rcases hasPfx_head hp with ⟨cs, hline, _⟩
    subst hline
    have hnd : hasPfx dataFieldPfx ('e' :: cs) = false := by simp [dataFieldPfx, hasPfx]
    simp [processLine, hnd, hp]
  · intro cur line hp
    rcases hp with hp | hp | hp
    · rcases hasPfx_head hp with ⟨cs, hline, _⟩
      subst hline
      have hnd : hasPfx dataFieldPfx ('i' :: cs) = false := by simp [dataFieldPfx, hasPfx]
      have hnev : hasPfx eventFieldPfx ('i' :: cs) = false := by simp [eventFieldPfx, hasPfx]
      simp [processLine, hnd, hnev, hp]
    · rcases hasPfx_head hp with ⟨cs, hline, _⟩
      subst hline
      have hnd : hasPfx dataFieldPfx ('r' :: cs) = false := by simp [dataFieldPfx, hasPfx]
      have hnev : hasPfx eventFieldPfx ('r' :: cs) = false := by simp [eventFieldPfx, hasPfx]
      have hni : hasPfx idFieldPfx ('r' :: cs) = false := by simp [idFieldPfx, hasPfx]
      simp [processLine, hnd, hnev, hni, hp]
    · rcases hasPfx_head hp with ⟨cs, hline, _⟩
      subst hline
      have hnd : hasPfx dataFieldPfx (':' :: cs) = false := by simp [dataFieldPfx, hasPfx]
      have hnev : hasPfx eventFieldPfx (':' :: cs) = false := by simp [eventFieldPfx, hasPfx]
      have hni : hasPfx idFieldPfx (':' :: cs) = false := by simp [idFieldPfx, hasPfx]
      have hnr : hasPfx retryFieldPfx (':' :: cs) = false := by simp [retryFieldPfx, hasPfx]
      simp [processLine, hnd, hnev, hni, hnr, hp]
  · intro cur line ev h
    by_cases hline : line = []
    · subst hline
      by_cases hdata : cur.data = []
      · simp [processLine, hdata] at h
      · have heq : (processLine cur []).2 =
            some { type := if cur.type = [] then messageTypeChars else cur.type,
                   data := cur.data } := by
          simp [processLine, hdata]
        rw [heq] at h
        have hev := Option.some.inj h
        rw [← hev]
        simpa using hdata
    · simp [processLine, if_neg hline, apply_ite Prod.snd, ite_self] at h

/-- Witness for C7 on concrete lines: two data lines join with a newline,
an `event:` line sets the type, `id:`/comment lines are ignored, a blank
line flushes the event (with the default type), and a blank line with no
data emits nothing. -/
theorem sse_line_parsing_witness :
    processLine ⟨[], []⟩ ('d' :: 'a' :: 't' :: 'a' :: ':' :: ' ' :: 'h' :: 'i' :: []) =
      (⟨[], ['h', 'i']⟩, none) ∧
    processLine ⟨[], ['h', 'i']⟩ ('d' :: 'a' :: 't' :: 'a' :: ':' :: 'y' :: 'o' :: []) =
      (⟨[], ['h', 'i', '\n', 'y', 'o']⟩, none) ∧
    processLine ⟨[], ['h', 'i']⟩ ('e' :: 'v' :: 'e' :: 'n' :: 't' :: ':' :: ' ' :: 'p' :: []) =
      (⟨['p'], ['h', 'i']⟩, none) ∧
    processLine ⟨['p'], ['h', 'i']⟩ ('i' :: 'd' :: ':' :: '7' :: []) =
      (⟨['p'], ['h', 'i']⟩, none) ∧
    processLine ⟨[], ['h', 'i']⟩ [] = (⟨[], []⟩, some ⟨messageTypeChars, ['h', 'i']⟩) ∧
    processLine ⟨['p'], []⟩ [] = (⟨['p'], []⟩, none) := by
  refine ⟨?_, ?_, ?_, ?_, ?_, ?_⟩
  · exact (sse_line_parsing.2.2.1 ⟨[], []⟩ _ (by decide)).trans (by decide)
  · exact (sse_line_parsing.2.2.1 ⟨[], ['h', 'i']⟩ _ (by decide)).trans (by decide)
  · exact (sse_line_parsing.2.2.2.1 ⟨[], ['h', 'i']⟩ _ (by decide)).trans (by decide)
  · exact sse_line_parsing.2.2.2.2.1 ⟨['p'], ['h', 'i']⟩ _ (Or.inl (by decide))
  · exact (sse_line_parsing.1 ⟨[], ['h', 'i']⟩ (by decide)).trans (by decide)
  · exact sse_line_parsing.2.1 ⟨['p'], []⟩ rfl

theorem applyEvent_connectFailed (s : SubBackoff) :
    applyEvent s .connectFailed =
      ⟨min (s.reconnectDelayMs * 2) maxReconnectDelayMs, s.consecutiveFailures + 1⟩ := by
  rcases s with ⟨d, k⟩
  simp only [applyEvent, handleReconnect, SubBackoff.mk.injEq, maxReconnectDelayMs]
  constructor
  · split <;> omega
  · trivial

theorem afterFailures_state (k : Nat) :
    (afterFailures k).consecutiveFailures = k ∧
    (afterFailures k).reconnectDelayMs = min (1000 * 2 ^ k) maxReconnectDelayMs := by
  induction k with
  | zero =>
    constructor
    · rfl
    · decide
  | succ k ih =>
    rw [afterFailures, applyEvent_connectFailed]
    refine ⟨by rw [ih.1], ?_⟩
    rw [ih.2]
    have h2 : 1000 * 2 ^ (k + 1) = 1000 * 2 ^ k * 2 := by ring
    rw [h2]
    simp only [maxReconnectDelayMs]
    generalize 1000 * 2 ^ k = a
    omega

/-- Claim C8: the reconnect delay starts at 1 s, doubles after each
failed connect attempt with a 30 s clamp, and resets to 1 s on any
successful connection; the failure counter reaches the polling threshold
after exactly 5 consecutive failures, at which point the loop polls at
the fixed 5 s interval instead of attempting the stream; a successful
poll resets counter and backoff, so the next iteration attempts the
stream again. -/
theorem reconnect_backoff_policy :
    initialBackoff.reconnectDelayMs = 1000 ∧ initialBackoff.consecutiveFailures = 0 ∧
    (∀ s : SubBackoff,
      applyEvent s .connectFailed =
        ⟨min (s.reconnectDelayMs * 2) maxReconnectDelayMs, s.consecutiveFailures + 1⟩) ∧
    (∀ s : SubBackoff, applyEvent s .connected = initialBackoff) ∧
    (∀ k : Nat, (afterFailures k).consecutiveFailures = k ∧
      (afterFailures k).reconnectDelayMs = min (1000 * 2 ^ k) maxReconnectDelayMs) ∧
    (∀ k : Nat, usesPolling (afterFailures k) = decide (maxFailuresBeforePolling ≤ k)) ∧
    maxFailuresBeforePolling = 5 ∧ pollingIntervalMs = 5000 ∧
    maxReconnectDelayMs = 30000 ∧
    (∀ s : SubBackoff, applyEvent s .pollSucceeded = initialBackoff ∧
      usesPolling (applyEvent s .pollSucceeded) = false) := by
  refine ⟨rfl, rfl, applyEvent_connectFailed, fun s => rfl, afterFailures_state,
    ?_, rfl, rfl, rfl, fun s => ⟨rfl, rfl⟩⟩
  intro k
  simp [usesPolling, (afterFailures_state k).1, ge_iff_le]

theorem applyOps_all_stop :
    ∀ (ops : List SubOp) (s : SubLifecycle),
      ops.all (fun op => decide (op = .stop)) = true → s.running = false →
      applyOps s ops = s := by
  intro ops
  induction ops with
  | nil => intro s _ _; rfl
  | cons op rest ih =>
    intro s hall hrun
    rw [List.all_cons, Bool.and_eq_true] at hall
    rcases hall with ⟨hop, hrest⟩
    have hop2 : op = SubOp.stop := by simpa using hop
    subst hop2
    have hstop : subStop s = s := by simp [subStop, hrun]
    simpa [applyOps, hstop] using ih s hrest hrun

theorem applyOps_close_bound :
    ∀ (ops : List SubOp) (s : SubLifecycle), noRestart ops = true →
      s.doneCloseCount = 0 → (applyOps s ops).doneCloseCount ≤ 1 := by
  intro ops
  induction ops with
  | nil =>
    intro s _ hcount
    simpa [applyOps] using Nat.le_of_eq hcount |>.trans (by omega)
  | cons op rest ih =>
    intro s hnr hcount
    cases op with
    | start =>
      have hnr2 : noRestart rest = true := by simpa [noRestart] using hnr
      have hcount2 : (subStart s).doneCloseCount = 0 := by
        by_cases hr : s.running <;> simp [subStart, hr, hcount]
      simpa [applyOps] using ih (subStart s) hnr2 hcount2
    | stop =>
      have hall : rest.all (fun op => decide (op = SubOp.stop)) = true := by
        simpa [noRestart] using hnr
      by_cases hr : s.running = true
      · have hstop : (subStop s).running = false ∧ (subStop s).doneCloseCount = 1 := by
          simp [subStop, hr, hcount]
        have := applyOps_all_stop rest (subStop s) hall hstop.1
        simp [applyOps, this, hstop.2]
      · have hr2 : s.running = false := by simpa using hr
        have hstop : subStop s = s := by simp [subStop, hr2]
        have := applyOps_all_stop rest s hall hr2
        simp [applyOps, hstop, this, hcount]

/-- Counterexample to C10 as stated: restarting after a stop and stopping
again closes the `done` channel a second time — the channel is created
once at construction and `Start` never replaces it, so the sequence
Start, Stop, Start, Stop reaches a second `close(s.done)` (a panic in
Go). -/
theorem start_stop_double_close :
    (applyOps newSubLifecycle [.start, .stop, .start, .stop]).doneCloseCount = 2 := by
  decide

/-- Claim C10 (amended): `Stop` on a subscriber that is not running is a
no-op, `Start` on a running subscriber returns the same events channel
and spawns no second run loop, and across any `Start`/`Stop` sequence
with no restart (no `Start` after a `Stop`) the `done` channel is closed
at most once. -/
theorem lifecycle_idempotent :
    (∀ s : SubLifecycle, s.running = false → subStop s = s) ∧
    (∀ s : SubLifecycle, s.running = true →
      subStart s = s ∧ subStartReturn s = s.eventsChan ∧
      (subStart s).loopsSpawned = s.loopsSpawned) ∧
    (∀ ops : List SubOp, noRestart ops = true →
      (applyOps newSubLifecycle ops).doneCloseCount ≤ 1) := by
  refine ⟨?_, ?_, ?_⟩
  · intro s hr
    simp [subStop, hr]
  · intro s hr
    exact ⟨by simp [subStart, hr], rfl, by simp [subStart, hr]⟩
  · intro ops hnr
    exact applyOps_close_bound ops newSubLifecycle hnr rfl

/-- Witness for C10: stopping a fresh subscriber is a no-op, a second
`Start` on a started subscriber changes nothing, and the ordinary
lifecycle `[start, stop]` closes `done` exactly once (at most once). -/
theorem lifecycle_idempotent_witness :
    subStop newSubLifecycle = newSubLifecycle ∧
    subStart (subStart newSubLifecycle) = subStart newSubLifecycle ∧
    (applyOps newSubLifecycle [.start, .stop]).doneCloseCount ≤ 1 :=
  ⟨lifecycle_idempotent.1 newSubLifecycle rfl,
   (lifecycle_idempotent.2.1 (subStart newSubLifecycle) (by decide)).1,
   lifecycle_idempotent.2.2 [.start, .stop] (by decide)⟩

end Momentum
